import Mathlib

/-!
Verification of the `mio-byte-fifo` SPSC byte channel (`src/lib.rs`).

The channel state is embedded shallowly: the shared ring buffer is a
`List Nat` of buffered bytes (front = oldest), the liveness flag `cls`
is the shared `AtomicBool` (`true` = both halves alive, as in the
source, where `create` stores `true` and each `Drop` stores `false`),
and `rdReady` / `wrReady` are the two cross-wired mio readiness links
(`rdReady` is the consumer-side readiness raised through the producer's
`src : SetReadiness`; `wrReady` is the producer-side readiness raised
through the consumer's `srp : SetReadiness`).

The physical ring (`rb::SpscRb`) is an external collaborator of the
repository; it is embedded from its contract in the specification
(section 6): `write` fails with `Full` exactly when the buffer is
currently full and otherwise moves `min (len, free)` bytes; `read`
fails with `Empty` exactly when the buffer is currently empty and
otherwise moves `min (len, occupied)` bytes; `is_empty` / `is_full`
are instantaneous snapshots.
-/

namespace MioByteFifo

/-- Error kinds used by the library: `std::io::ErrorKind::WouldBlock`
and `std::io::ErrorKind::BrokenPipe`. -/
inductive ErrKind where
  | wouldBlock
  | brokenPipe
deriving DecidableEq

/-- A `std::io::Error` as constructed by the library: a kind plus the
message string passed to `Error::new`. -/
structure IoError where
  kind : ErrKind
  msg : String
deriving DecidableEq

instance : DecidableEq (Except IoError Nat) := fun a b =>
  match a, b with
  | .ok x, .ok y =>
      if h : x = y then isTrue (by rw [h]) else isFalse (by simp [h])
  | .ok _, .error _ => isFalse (by simp)
  | .error _, .ok _ => isFalse (by simp)
  | .error e, .error f =>
      if h : e = f then isTrue (by rw [h]) else isFalse (by simp [h])

/-- The shared state of one channel: capacity, ring contents (front =
oldest byte), the shared liveness flag `cls` (`true` = alive), and the
two readiness links. -/
structure Channel where
  cap : Nat
  ring : List Nat
  cls : Bool
  rdReady : Bool
  wrReady : Bool
deriving DecidableEq

/-- Embeds `create(capacity)` (`src/lib.rs:176-190`): allocates an empty ring
of the given capacity, a liveness flag initialized to `true`, and the
two registration/readiness pairs, both initially not ready. It has no
failure path: its return type is a plain `(Producer, Consumer)` pair. -/
def create (capacity : Nat) : Channel :=
  ⟨capacity, [], true, false, false⟩

/-- Outcome of one `Producer::write` call: the returned
`Result<usize, Error>`, the channel state after the call, and whether
the reader's readiness link was raised during the call. -/
structure WriteOut where
  res : Except IoError Nat
  st : Channel
  raised : Bool
deriving DecidableEq

/-- Outcome of one `Consumer::read` call: the returned
`Result<usize, Error>`, the channel state after the call, whether the
writer's readiness link was raised, and the bytes copied into the
caller's buffer. -/
structure ReadOut where
  res : Except IoError Nat
  st : Channel
  raised : Bool
  data : List Nat
deriving DecidableEq

/-- Embeds `Producer::write` (`src/lib.rs:237-264`), with the result of the
`set_readiness` call passed in as `sr` (in the source it is fallible:
`self.src.set_readiness(Ready::readable())` returns `io::Result<()>`
and its error is propagated via `res.and(Ok(num))`).

Order of the source: (1) if `!cls` return `BrokenPipe` ("Consumer was
closed"); (2) snapshot `empty = rb.is_empty()`; (3) `rbp.write(buf)`,
which fails with `Full` when the ring is full and otherwise moves
`min (buf.len, free)` bytes; (4) if `num > 0 && empty`, raise the
reader's readiness and propagate any raise error instead of `Ok(num)`. -/
def Producer.writeSr (ch : Channel) (buf : List Nat) (sr : Except IoError Unit) :
    WriteOut :=
  if ch.cls = false then
    ⟨.error ⟨.brokenPipe, "Consumer was closed"⟩, ch, false⟩
  else if ch.ring.length = ch.cap then
    ⟨.error ⟨.wouldBlock, "Ring buffer is full"⟩, ch, false⟩
  else if 0 < min buf.length (ch.cap - ch.ring.length) ∧ ch.ring.length = 0 then
    match sr with
    | .ok _ =>
        ⟨.ok (min buf.length (ch.cap - ch.ring.length)),
         { ch with
            ring := ch.ring ++ buf.take (min buf.length (ch.cap - ch.ring.length)),
            rdReady := true },
         true⟩
    | .error e =>
        ⟨.error e,
         { ch with
            ring := ch.ring ++ buf.take (min buf.length (ch.cap - ch.ring.length)) },
         false⟩
  else
    ⟨.ok (min buf.length (ch.cap - ch.ring.length)),
     { ch with
        ring := ch.ring ++ buf.take (min buf.length (ch.cap - ch.ring.length)) },
     false⟩

/-- Embeds `Producer::write` with a succeeding `set_readiness`, the
normal case. -/
def Producer.write (ch : Channel) (buf : List Nat) : WriteOut :=
  Producer.writeSr ch buf (.ok ())

/-- Embeds `Consumer::read` (`src/lib.rs:273-302`), with the result of the
`set_readiness` call passed in as `sr`.

Order of the source: (1) snapshot `full = rb.is_full()`; (2)
`rbc.read(buf)`, which fails with `Empty` when the ring is empty and
otherwise moves `min (buf.len, occupied)` bytes from the front; (3) on
`Empty`, return `BrokenPipe` ("Producer was closed") if `!cls`, else
`WouldBlock` ("Ring buffer is empty"); (4) if `num > 0 && full`, raise
the writer's readiness and propagate any raise error instead of
`Ok(num)`. -/
def Consumer.readSr (ch : Channel) (bufLen : Nat) (sr : Except IoError Unit) :
    ReadOut :=
  if ch.ring.length = 0 then
    if ch.cls = false then
      ⟨.error ⟨.brokenPipe, "Producer was closed"⟩, ch, false, []⟩
    else
      ⟨.error ⟨.wouldBlock, "Ring buffer is empty"⟩, ch, false, []⟩
  else if 0 < min bufLen ch.ring.length ∧ ch.ring.length = ch.cap then
    match sr with
    | .ok _ =>
        ⟨.ok (min bufLen ch.ring.length),
         { ch with
            ring := ch.ring.drop (min bufLen ch.ring.length),
            wrReady := true },
         true,
         ch.ring.take (min bufLen ch.ring.length)⟩
    | .error e =>
        ⟨.error e,
         { ch with ring := ch.ring.drop (min bufLen ch.ring.length) },
         false,
         ch.ring.take (min bufLen ch.ring.length)⟩
  else
    ⟨.ok (min bufLen ch.ring.length),
     { ch with ring := ch.ring.drop (min bufLen ch.ring.length) },
     false,
     ch.ring.take (min bufLen ch.ring.length)⟩

/-- Embeds `Consumer::read` with a succeeding `set_readiness`, the
normal case. -/
def Consumer.read (ch : Channel) (bufLen : Nat) : ReadOut :=
  Consumer.readSr ch bufLen (.ok ())

/-- Embeds `Drop for Producer` (`src/lib.rs:220-226`): stores `false` into the
liveness flag, then unconditionally raises the consumer's readiness
(`self.src.set_readiness(Ready::all())`). -/
def Producer.teardown (ch : Channel) : Channel :=
  { ch with cls := false, rdReady := true }

/-- Embeds `Drop for Consumer` (`src/lib.rs:228-234`): stores `false` into the
liveness flag, then unconditionally raises the producer's readiness
(`self.srp.set_readiness(Ready::all())`). -/
def Consumer.teardown (ch : Channel) : Channel :=
  { ch with cls := false, wrReady := true }


/-- Number of bytes one `Producer::write` call accepts, as a function
of the pre-state: zero when the peer is gone or the ring is full,
otherwise `min (buf.len) free`. -/
def wAcc (ch : Channel) (buf : List Nat) : Nat :=
  if ch.cls = false then 0
  else if ch.ring.length = ch.cap then 0
  else min buf.length (ch.cap - ch.ring.length)

/-- Number of bytes one `Consumer::read` call drains, as a function of
the pre-state: zero when the ring is empty, otherwise
`min (buf.len) occupied`. -/
def rCnt (ch : Channel) (bufLen : Nat) : Nat :=
  if ch.ring.length = 0 then 0 else min bufLen ch.ring.length

/-- State of the retry-driven transfer loop of the spec's round-trip
property: the channel, the suffix of the source sequence not yet
accepted by a write, and the bytes delivered to the reader so far. -/
structure DriveState where
  ch : Channel
  rest : List Nat
  out : List Nat
deriving DecidableEq

/-- The count a finished write reported (0 for a failed write, as the
caller of a `WouldBlock`-returning write treats it). -/
def writeAcc (w : WriteOut) : Nat :=
  match w.res with
  | .ok n => n
  | .error _ => 0

/-- One round of the transfer loop: the writer offers the next `k`
not-yet-accepted bytes (a retry after `WouldBlock` or after a partial
write is just a later round whose chunk starts at the new position,
exactly as in the crate's doc example, which advances `pos` by the
returned count), then the reader reads with a `b`-byte buffer. -/
def roundStep (k b : Nat) (s : DriveState) : DriveState :=
  ⟨(Consumer.read (Producer.write s.ch (s.rest.take k)).st b).st,
   s.rest.drop (writeAcc (Producer.write s.ch (s.rest.take k))),
   s.out ++ (Consumer.read (Producer.write s.ch (s.rest.take k)).st b).data⟩

/-- Runs `r` rounds of the transfer loop, the chunk
sizes and read-buffer sizes drawn from the arbitrary schedules `ks`
and `bs`. -/
def drive (ks bs : Nat → Nat) : Nat → DriveState → DriveState
  | 0, s => s
  | i + 1, s => drive ks bs i (roundStep (ks i) (bs i) s)

/-- Invariant of the transfer loop: the peer stays alive, the ring
occupancy never exceeds the capacity, and delivered bytes, buffered
bytes and still-to-send bytes concatenate to the source sequence. -/
def DriveInv (C : Nat) (S : List Nat) (s : DriveState) : Prop :=
  s.ch.cap = C ∧ s.ch.cls = true ∧ s.ch.ring.length ≤ C ∧
    s.out ++ s.ch.ring ++ s.rest = S

/-- Scenario B, step 1: write the eight bytes `[0..8)` into a fresh
capacity-8 channel. -/
def scenB1 : WriteOut := Producer.write (create 8) [0, 1, 2, 3, 4, 5, 6, 7]

/-- Scenario B, step 2: read 3 bytes. -/
def scenB2 : ReadOut := Consumer.read scenB1.st 3

/-- Scenario B, step 3: write `b"abcdef"` (bytes 97..102). -/
def scenB3 : WriteOut := Producer.write scenB2.st [97, 98, 99, 100, 101, 102]

/-- Scenario B, step 4: read 3 bytes. -/
def scenB4 : ReadOut := Consumer.read scenB3.st 3

/-- Scenario B, step 5: read up to 5 bytes. -/
def scenB5 : ReadOut := Consumer.read scenB4.st 5

theorem write_res_ok (ch : Channel) (buf : List Nat) (n : Nat)
    (h : (Producer.write ch buf).res = .ok n) : n = wAcc ch buf := by
  unfold Producer.write Producer.writeSr at h
  split at h <;> rename_i hc
  · simp at h
  · split at h <;> rename_i hf
    · simp at h
    · split at h <;> rename_i hcond
      · simp at h
        simp [wAcc, hc, hf, ← h]
      · simp at h
        simp [wAcc, hc, hf, ← h]

theorem write_st_ring (ch : Channel) (buf : List Nat) :
    (Producer.write ch buf).st.ring = ch.ring ++ buf.take (wAcc ch buf) := by
  unfold Producer.write Producer.writeSr
  split <;> rename_i hc
  · simp [wAcc, hc]
  · split <;> rename_i hf
    · simp [wAcc, hc, hf]
    · split <;> rename_i hcond
      · simp [wAcc, hc, hf]
      · simp [wAcc, hc, hf]

theorem write_st_cls (ch : Channel) (buf : List Nat) :
    (Producer.write ch buf).st.cls = ch.cls := by
  unfold Producer.write Producer.writeSr
  split <;> rename_i hc
  · rfl
  · split <;> rename_i hf
    · rfl
    · split <;> rename_i hcond <;> rfl

theorem write_st_cap (ch : Channel) (buf : List Nat) :
    (Producer.write ch buf).st.cap = ch.cap := by
  unfold Producer.write Producer.writeSr
  split <;> rename_i hc
  · rfl
  · split <;> rename_i hf
    · rfl
    · split <;> rename_i hcond <;> rfl

theorem write_ok_of (ch : Channel) (buf : List Nat) (hc : ch.cls = true)
    (hf : ch.ring.length ≠ ch.cap) :
    (Producer.write ch buf).res = .ok (wAcc ch buf) := by
  have h1 : ¬(ch.cls = false) := by simp [hc]
  unfold Producer.write Producer.writeSr
  rw [if_neg h1, if_neg hf]
  rw [wAcc, if_neg h1, if_neg hf]
  split <;> rfl

theorem write_raised_iff (ch : Channel) (buf : List Nat) :
    (Producer.write ch buf).raised = true ↔
      ch.cls = true ∧ ch.ring.length ≠ ch.cap ∧
        0 < wAcc ch buf ∧ ch.ring.length = 0 := by
  unfold Producer.write Producer.writeSr
  split <;> rename_i hc
  · simp [hc]
  · split <;> rename_i hf
    · simp [hf]
    · simp only [Bool.not_eq_false] at hc
      split <;> rename_i hcond
      · constructor
        · intro _
          refine ⟨hc, hf, ?_, hcond.2⟩
          rw [wAcc, if_neg (by simp [hc]), if_neg hf]
          exact hcond.1
        · intro _
          rfl
      · constructor
        · intro hr
          simp at hr
        · rintro ⟨-, -, hw, hemp⟩
          rw [wAcc, if_neg (by simp [hc]), if_neg hf] at hw
          exact absurd ⟨hw, hemp⟩ hcond

theorem read_res_ok (ch : Channel) (bufLen n : Nat)
    (h : (Consumer.read ch bufLen).res = .ok n) : n = rCnt ch bufLen := by
  unfold Consumer.read Consumer.readSr at h
  split at h <;> rename_i he
  · split at h <;> simp at h
  · split at h <;> rename_i hcond
    · simp at h
      simp [rCnt, he, ← h]
    · simp at h
      simp [rCnt, he, ← h]

theorem read_st_ring (ch : Channel) (bufLen : Nat) :
    (Consumer.read ch bufLen).st.ring = ch.ring.drop (rCnt ch bufLen) := by
  unfold Consumer.read Consumer.readSr
  split <;> rename_i he
  · split <;> simp [rCnt, he]
  · split <;> rename_i hcond <;> simp [rCnt, he]

theorem read_data (ch : Channel) (bufLen : Nat) :
    (Consumer.read ch bufLen).data = ch.ring.take (rCnt ch bufLen) := by
  unfold Consumer.read Consumer.readSr
  split <;> rename_i he
  · split <;> simp [rCnt, he]
  · split <;> rename_i hcond <;> simp [rCnt, he]

theorem read_st_cls (ch : Channel) (bufLen : Nat) :
    (Consumer.read ch bufLen).st.cls = ch.cls := by
  unfold Consumer.read Consumer.readSr
  split <;> rename_i he
  · split <;> rfl
  · split <;> rfl

theorem read_st_cap (ch : Channel) (bufLen : Nat) :
    (Consumer.read ch bufLen).st.cap = ch.cap := by
  unfold Consumer.read Consumer.readSr
  split <;> rename_i he
  · split <;> rfl
  · split <;> rfl

theorem read_ok_of (ch : Channel) (bufLen : Nat) (he : ch.ring.length ≠ 0) :
    (Consumer.read ch bufLen).res = .ok (rCnt ch bufLen) := by
  unfold Consumer.read Consumer.readSr
  rw [if_neg he]
  rw [rCnt, if_neg he]
  split <;> rfl

theorem read_raised_iff (ch : Channel) (bufLen : Nat) :
    (Consumer.read ch bufLen).raised = true ↔
      ch.ring.length ≠ 0 ∧ 0 < rCnt ch bufLen ∧ ch.ring.length = ch.cap := by
  unfold Consumer.read Consumer.readSr
  split <;> rename_i he
  · split <;> simp [he]
  · split <;> rename_i hcond
    · constructor
      · intro _
        refine ⟨he, ?_, hcond.2⟩
        rw [rCnt, if_neg he]
        exact hcond.1
      · intro _
        rfl
    · constructor
      · intro hr
        simp at hr
      · rintro ⟨-, hw, hfull⟩
        rw [rCnt, if_neg he] at hw
        exact absurd ⟨hw, hfull⟩ hcond

theorem read_err_closed (ch : Channel) (bufLen : Nat) (he : ch.ring.length = 0)
    (hc : ch.cls = false) :
    Consumer.read ch bufLen =
      ⟨.error ⟨.brokenPipe, "Producer was closed"⟩, ch, false, []⟩ := by
  unfold Consumer.read Consumer.readSr
  rw [if_pos he, if_pos hc]

theorem read_err_empty (ch : Channel) (bufLen : Nat) (he : ch.ring.length = 0)
    (hc : ch.cls = true) :
    Consumer.read ch bufLen =
      ⟨.error ⟨.wouldBlock, "Ring buffer is empty"⟩, ch, false, []⟩ := by
  unfold Consumer.read Consumer.readSr
  rw [if_pos he, if_neg (by simp [hc])]

theorem write_err_closed (ch : Channel) (buf : List Nat) (hc : ch.cls = false) :
    Producer.write ch buf =
      ⟨.error ⟨.brokenPipe, "Consumer was closed"⟩, ch, false⟩ := by
  unfold Producer.write Producer.writeSr
  rw [if_pos hc]

/-- C1: conditioned on a successful call, the peer's readiness link is
raised if and only if the call moved `n > 0` bytes and the snapshot
taken immediately before the mutation saw the ring empty (for
`Producer::write`) respectively full (for `Consumer::read`); and the
state in which the raise is visible already contains the completed data
movement (`ring ++ taken bytes` on write, `drop n` on read), i.e. the
raise follows the data movement. -/
theorem readiness_raise_edge (ch : Channel) (buf : List Nat) (bufLen n : Nat) :
    ((Producer.write ch buf).res = .ok n →
      (((Producer.write ch buf).raised = true) ↔ (0 < n ∧ ch.ring = [])) ∧
      (Producer.write ch buf).st.ring = ch.ring ++ buf.take n) ∧
    ((Consumer.read ch bufLen).res = .ok n →
      (((Consumer.read ch bufLen).raised = true) ↔
        (0 < n ∧ ch.ring.length = ch.cap)) ∧
      (Consumer.read ch bufLen).st.ring = ch.ring.drop n) := by
  constructor
  · intro hres
    have hn := write_res_ok ch buf n hres
    subst hn
    refine ⟨?_, write_st_ring ch buf⟩
    rw [write_raised_iff]
    constructor
    · rintro ⟨-, -, hpos, hemp⟩
      exact ⟨hpos, List.length_eq_zero.mp hemp⟩
    · rintro ⟨hpos, hemp⟩
      have hemp' : ch.ring.length = 0 := by simp [hemp]
      have hc : ch.cls = true := by
        by_contra hcc
        have hcf : ch.cls = false := by
          cases hx : ch.cls
          · rfl
          · exact absurd hx hcc
        rw [wAcc, if_pos hcf] at hpos
        exact absurd hpos (lt_irrefl 0)
      have hf : ch.ring.length ≠ ch.cap := by
        intro hfe
        rw [wAcc, if_neg (by simp [hc]), if_pos hfe] at hpos
        exact absurd hpos (lt_irrefl 0)
      exact ⟨hc, hf, hpos, hemp'⟩
  · intro hres
    have hn := read_res_ok ch bufLen n hres
    subst hn
    refine ⟨?_, read_st_ring ch bufLen⟩
    rw [read_raised_iff]
    constructor
    · rintro ⟨-, hpos, hfull⟩
      exact ⟨hpos, hfull⟩
    · rintro ⟨hpos, hfull⟩
      have he : ch.ring.length ≠ 0 := by
        intro he0
        rw [rCnt, if_pos he0] at hpos
        exact absurd hpos (lt_irrefl 0)
      exact ⟨he, hpos, hfull⟩

/-- Witness for `readiness_raise_edge`: a 2-byte write into an empty
ring of capacity 4 raises the reader's readiness; a 1-byte read from a
full ring of capacity 2 raises the writer's readiness. -/
theorem readiness_raise_edge_witness :
    ((Producer.write ⟨4, [], true, false, false⟩ [1, 2]).raised = true ↔
      (0 < 2 ∧ ([] : List Nat) = [])) ∧
    ((Consumer.read ⟨2, [5, 6], true, false, false⟩ 1).raised = true ↔
      (0 < 1 ∧ [5, 6].length = 2)) :=
  ⟨((readiness_raise_edge ⟨4, [], true, false, false⟩ [1, 2] 0 2).1 rfl).1,
   ((readiness_raise_edge ⟨2, [5, 6], true, false, false⟩ [] 1 1).2 rfl).1⟩

/-- C3: for every input slice, if the liveness flag reads "gone" at the
start of `Producer::write`, the call fails with `PeerClosed`
("Consumer was closed"), no bytes are written, and the channel state —
ring contents, occupancy, flag, readiness — is exactly as before. -/
theorem write_peer_closed (ch : Channel) (buf : List Nat) (h : ch.cls = false) :
    Producer.write ch buf =
      ⟨.error ⟨.brokenPipe, "Consumer was closed"⟩, ch, false⟩ := by
  simp [Producer.write, Producer.writeSr, h]

/-- Witness for `write_peer_closed` at a concrete closed channel. -/
theorem write_peer_closed_witness :
    Producer.write ⟨16, [7, 8], false, false, false⟩ [1, 2, 3] =
      ⟨.error ⟨.brokenPipe, "Consumer was closed"⟩,
       ⟨16, [7, 8], false, false, false⟩, false⟩ :=
  write_peer_closed ⟨16, [7, 8], false, false, false⟩ [1, 2, 3] rfl

/-- C5: writing to a full ring with the peer alive fails with
`WouldBlock` ("Ring buffer is full") and reading an empty ring with the
peer alive fails with `WouldBlock` ("Ring buffer is empty"); in both
cases the whole channel state (ring contents, occupancy, liveness flag,
readiness links) is returned unchanged and no readiness is raised. -/
theorem would_block_no_change (ch : Channel) (buf : List Nat) (bufLen : Nat) :
    (ch.cls = true → ch.ring.length = ch.cap →
      Producer.write ch buf =
        ⟨.error ⟨.wouldBlock, "Ring buffer is full"⟩, ch, false⟩) ∧
    (ch.cls = true → ch.ring = [] →
      Consumer.read ch bufLen =
        ⟨.error ⟨.wouldBlock, "Ring buffer is empty"⟩, ch, false, []⟩) := by
  constructor
  · intro hc hf
    simp [Producer.write, Producer.writeSr, hc, hf]
  · intro hc he
    simp [Consumer.read, Consumer.readSr, hc, he]

/-- Witness for `would_block_no_change`: a full ring of capacity 2 on
the write side and an empty ring on the read side. -/
theorem would_block_no_change_witness :
    Producer.write ⟨2, [4, 5], true, false, false⟩ [1] =
      ⟨.error ⟨.wouldBlock, "Ring buffer is full"⟩,
       ⟨2, [4, 5], true, false, false⟩, false⟩ ∧
    Consumer.read ⟨2, [], true, false, false⟩ 3 =
      ⟨.error ⟨.wouldBlock, "Ring buffer is empty"⟩,
       ⟨2, [], true, false, false⟩, false, []⟩ :=
  ⟨(would_block_no_change ⟨2, [4, 5], true, false, false⟩ [1] 3).1 rfl rfl,
   (would_block_no_change ⟨2, [], true, false, false⟩ [1] 3).2 rfl rfl⟩

/-- C7 counterexample: the claim says `create(0)` fails with
`InvalidCapacity` and produces no channel; in the source `create` has
return type `(Producer, Consumer)` with no failure path at all, and at
capacity 0 it produces a fully connected channel (empty ring, liveness
flag alive, no readiness pending). -/
theorem create_zero_succeeds :
    create 0 = ⟨0, [], true, false, false⟩ := rfl

/-- C7 as amended: `create` never fails; for every capacity (zero
included) it returns a connected (Producer, Consumer) pair sharing an
empty ring of that capacity, an alive liveness flag and two unraised
readiness links; and the library's error vocabulary contains only
`WouldBlock` and `BrokenPipe`, so no `InvalidCapacity` error exists. -/
theorem create_total (capacity : Nat) (k : ErrKind) :
    create capacity = ⟨capacity, [], true, false, false⟩ ∧
    (k = .wouldBlock ∨ k = .brokenPipe) := by
  refine ⟨rfl, ?_⟩
  cases k
  · exact Or.inl rfl
  · exact Or.inr rfl

/-- C9 counterexample: the claim says writing an empty slice never
fails in any channel state; but once the consumer is gone,
`Producer::write` returns `BrokenPipe` before ever looking at the
buffer, even for an empty slice. -/
theorem write_empty_slice_cex :
    (Producer.write ⟨16, [], false, false, false⟩ []).res =
      .error ⟨.brokenPipe, "Consumer was closed"⟩ := rfl

/-- C9 as amended: writing an empty slice returns `Ok(0)` with no side
effects whenever the liveness flag is alive and the ring is not full;
when the flag reads "gone" it fails with `PeerClosed` ("Consumer was
closed"), and on a full ring with the peer alive it fails with
`WouldBlock` — in every failing case too, the state is unchanged. -/
theorem write_empty_slice (ch : Channel) :
    (ch.cls = true → ch.ring.length ≠ ch.cap →
      Producer.write ch [] = ⟨.ok 0, ch, false⟩) ∧
    (ch.cls = false →
      Producer.write ch [] =
        ⟨.error ⟨.brokenPipe, "Consumer was closed"⟩, ch, false⟩) ∧
    (ch.cls = true → ch.ring.length = ch.cap →
      Producer.write ch [] =
        ⟨.error ⟨.wouldBlock, "Ring buffer is full"⟩, ch, false⟩) := by
  obtain ⟨cap, ring, cls, rd, wr⟩ := ch
  refine ⟨?_, ?_, ?_⟩
  · intro hc hnf
    simp_all [Producer.write, Producer.writeSr]
  · intro hc
    simp_all [Producer.write, Producer.writeSr]
  · intro hc hf
    simp_all [Producer.write, Producer.writeSr]

/-- Witness for `write_empty_slice` at a concrete alive, non-full
channel. -/
theorem write_empty_slice_witness :
    Producer.write ⟨4, [9], true, false, false⟩ [] =
      ⟨.ok 0, ⟨4, [9], true, false, false⟩, false⟩ :=
  (write_empty_slice ⟨4, [9], true, false, false⟩).1 rfl (by decide)

/-- C2: `Consumer::read` fails with `PeerClosed` ("Producer was
closed") exactly when the ring is empty and the liveness flag reads
"gone", with `WouldBlock` ("Ring buffer is empty") exactly when the
ring is empty and the flag is alive; a non-empty ring always reads
successfully (never `PeerClosed`), and after the producer's teardown
the ring is untouched and still reads out the buffered bytes in
order. -/
theorem read_close_semantics (ch : Channel) (bufLen : Nat) :
    ((Consumer.read ch bufLen).res =
        .error ⟨.brokenPipe, "Producer was closed"⟩ ↔
      (ch.ring = [] ∧ ch.cls = false)) ∧
    ((Consumer.read ch bufLen).res =
        .error ⟨.wouldBlock, "Ring buffer is empty"⟩ ↔
      (ch.ring = [] ∧ ch.cls = true)) ∧
    (ch.ring ≠ [] →
      (Consumer.read ch bufLen).res = .ok (min bufLen ch.ring.length) ∧
      (Consumer.read ch bufLen).data =
        ch.ring.take (min bufLen ch.ring.length)) ∧
    ((Producer.teardown ch).ring = ch.ring) ∧
    (ch.ring ≠ [] →
      (Consumer.read (Producer.teardown ch) bufLen).res =
        .ok (min bufLen ch.ring.length) ∧
      (Consumer.read (Producer.teardown ch) bufLen).data =
        ch.ring.take (min bufLen ch.ring.length)) := by
  have hok : ∀ st : Channel, st.ring ≠ [] →
      (Consumer.read st bufLen).res = .ok (min bufLen st.ring.length) ∧
      (Consumer.read st bufLen).data =
        st.ring.take (min bufLen st.ring.length) := by
    intro st hne
    have he : st.ring.length ≠ 0 := by
      simp [List.length_eq_zero, hne]
    have h1 := read_ok_of st bufLen he
    have h2 := read_data st bufLen
    rw [rCnt, if_neg he] at h1 h2
    exact ⟨h1, h2⟩
  refine ⟨?_, ?_, hok ch, rfl, fun hne => hok (Producer.teardown ch) hne⟩
  · constructor
    · intro h
      by_cases he : ch.ring.length = 0
      · refine ⟨List.length_eq_zero.mp he, ?_⟩
        by_cases hc : ch.cls = false
        · exact hc
        · rw [Bool.not_eq_false] at hc
          rw [read_err_empty ch bufLen he hc] at h
          simp at h
      · rw [read_ok_of ch bufLen he] at h
        simp at h
    · rintro ⟨hre, hc⟩
      rw [read_err_closed ch bufLen (by simp [hre]) hc]
  · constructor
    · intro h
      by_cases he : ch.ring.length = 0
      · refine ⟨List.length_eq_zero.mp he, ?_⟩
        by_cases hc : ch.cls = false
        · rw [read_err_closed ch bufLen he hc] at h
          simp at h
        · rwa [Bool.not_eq_false] at hc
      · rw [read_ok_of ch bufLen he] at h
        simp at h
    · rintro ⟨hre, hc⟩
      rw [read_err_empty ch bufLen (by simp [hre]) hc]

/-- Witness for `read_close_semantics`: after tearing the producer
down on a channel holding `[3, 4]`, a 5-byte read still drains
`[3, 4]`. -/
theorem read_close_semantics_witness :
    (Consumer.read (Producer.teardown ⟨4, [3, 4], true, false, false⟩) 5).res =
      .ok (min 5 [3, 4].length) ∧
    (Consumer.read (Producer.teardown ⟨4, [3, 4], true, false, false⟩) 5).data =
      [3, 4].take (min 5 [3, 4].length) :=
  (read_close_semantics ⟨4, [3, 4], true, false, false⟩ 5).2.2.2.2 (by decide)

/-- C6: the liveness flag starts "alive" at `create`, is left unchanged
by every `write` and `read`, is set to "gone" (only) by either half's
teardown, never goes back to "alive", and the "gone" state is an
idempotent terminal: a write against it (and a read against it once
the ring is drained) reports `PeerClosed` and leaves the state exactly
as it was, so every further call reports `PeerClosed` again. -/
theorem liveness_flag_protocol (ch : Channel) (buf : List Nat)
    (bufLen capacity : Nat) :
    (create capacity).cls = true ∧
    (Producer.write ch buf).st.cls = ch.cls ∧
    (Consumer.read ch bufLen).st.cls = ch.cls ∧
    (Producer.teardown ch).cls = false ∧
    (Consumer.teardown ch).cls = false ∧
    (ch.cls = false →
      Producer.write ch buf =
        ⟨.error ⟨.brokenPipe, "Consumer was closed"⟩, ch, false⟩) ∧
    (ch.cls = false → ch.ring = [] →
      Consumer.read ch bufLen =
        ⟨.error ⟨.brokenPipe, "Producer was closed"⟩, ch, false, []⟩) :=
  ⟨rfl, write_st_cls ch buf, read_st_cls ch bufLen, rfl, rfl,
   fun hc => write_err_closed ch buf hc,
   fun hc hre => read_err_closed ch bufLen (by simp [hre]) hc⟩

/-- Witness for `liveness_flag_protocol` on a closed empty channel:
both a write and a read deterministically report `PeerClosed` and
leave the state unchanged. -/
theorem liveness_flag_protocol_witness :
    Producer.write ⟨8, [], false, false, false⟩ [1] =
      ⟨.error ⟨.brokenPipe, "Consumer was closed"⟩,
       ⟨8, [], false, false, false⟩, false⟩ ∧
    Consumer.read ⟨8, [], false, false, false⟩ 4 =
      ⟨.error ⟨.brokenPipe, "Producer was closed"⟩,
       ⟨8, [], false, false, false⟩, false, []⟩ :=
  ⟨(liveness_flag_protocol ⟨8, [], false, false, false⟩ [1] 4 8).2.2.2.2.2.1 rfl,
   (liveness_flag_protocol ⟨8, [], false, false, false⟩ [1] 4 8).2.2.2.2.2.2
     rfl rfl⟩

/-- C8 (spec Scenario B, mirroring the crate's `write_read_full`
test): on a capacity-8 channel, writing `[0..8)` returns 8 and fills
the ring; a 3-byte read yields `[0, 1, 2]`; writing `b"abcdef"`
(bytes 97..102) returns 3, accepting exactly `b"abc"`; the following
3-byte and 5-byte reads drain `[3, 4, 5]` and then
`[6, 7, 97, 98, 99]`. -/
theorem scenario_cap8 :
    scenB1.res = .ok 8 ∧ scenB1.st.ring.length = 8 ∧
    scenB2.res = .ok 3 ∧ scenB2.data = [0, 1, 2] ∧
    scenB3.res = .ok 3 ∧ scenB3.st.ring = [3, 4, 5, 6, 7, 97, 98, 99] ∧
    scenB4.res = .ok 3 ∧ scenB4.data = [3, 4, 5] ∧
    scenB5.res = .ok 5 ∧ scenB5.data = [6, 7, 97, 98, 99] := by decide

/-- C10: when a call moves `n > 0` bytes across an empty→non-empty
(write) or full→non-full (read) edge and the `set_readiness` raise
itself fails, the call returns the raise's error instead of `Ok(n)`,
while the ring mutation stays in place — the moved bytes are in (resp.
out of) the ring and the count is lost to the caller. -/
theorem raise_error_propagates (ch : Channel) (buf : List Nat) (bufLen : Nat)
    (e : IoError) :
    (ch.cls = true → ch.ring = [] → buf ≠ [] → 0 < ch.cap →
      (Producer.writeSr ch buf (.error e)).res = .error e ∧
      (Producer.writeSr ch buf (.error e)).st.ring =
        buf.take (min buf.length ch.cap)) ∧
    (ch.ring.length = ch.cap → 0 < bufLen → 0 < ch.cap →
      (Consumer.readSr ch bufLen (.error e)).res = .error e ∧
      (Consumer.readSr ch bufLen (.error e)).st.ring =
        ch.ring.drop (min bufLen ch.cap)) := by
  constructor
  · intro hc hre hbuf hcap
    have he : ch.ring.length = 0 := by simp [hre]
    have hbl : 0 < buf.length := List.length_pos.mpr hbuf
    unfold Producer.writeSr
    rw [if_neg (by simp [hc]), if_neg (by omega),
      if_pos ⟨by simp [he]; omega, he⟩]
    simp [hre, he]
  · intro hfull hbl hcap
    have he : ch.ring.length ≠ 0 := by omega
    unfold Consumer.readSr
    rw [if_neg he, if_pos ⟨by simp [hfull]; omega, hfull⟩]
    simp [hfull]

/-- Witness for `raise_error_propagates`: a 1-byte write into an empty
capacity-2 channel with a failing raise returns the raise error while
the byte stays in the ring; a 1-byte read from a full capacity-1
channel with a failing raise returns the error while the byte is
drained. -/
theorem raise_error_propagates_witness :
    (Producer.writeSr ⟨2, [], true, false, false⟩ [7]
        (.error ⟨.wouldBlock, "raise failed"⟩)).res =
      .error ⟨.wouldBlock, "raise failed"⟩ ∧
    (Producer.writeSr ⟨2, [], true, false, false⟩ [7]
        (.error ⟨.wouldBlock, "raise failed"⟩)).st.ring =
      [7].take (min [7].length 2) :=
  (raise_error_propagates ⟨2, [], true, false, false⟩ [7] 1
      ⟨.wouldBlock, "raise failed"⟩).1 rfl rfl (by decide) (by decide)


theorem wAcc_le_len (ch : Channel) (buf : List Nat) : wAcc ch buf ≤ buf.length := by
  unfold wAcc
  split
  · exact Nat.zero_le _
  · split
    · exact Nat.zero_le _
    · exact min_le_left _ _

theorem ring_after_write_le (ch : Channel) (buf : List Nat)
    (h : ch.ring.length ≤ ch.cap) :
    ch.ring.length + wAcc ch buf ≤ ch.cap := by
  unfold wAcc
  split
  · omega
  · split
    · omega
    · have := min_le_right buf.length (ch.cap - ch.ring.length)
      omega

theorem wAcc_pos (ch : Channel) (buf : List Nat) (hc : ch.cls = true)
    (hlt : ch.ring.length < ch.cap) (hbuf : buf ≠ []) : 0 < wAcc ch buf := by
  unfold wAcc
  rw [if_neg (by simp [hc]), if_neg (by omega)]
  exact lt_min_iff.mpr ⟨List.length_pos.mpr hbuf, by omega⟩

theorem writeAcc_eq (ch : Channel) (buf : List Nat) :
    writeAcc (Producer.write ch buf) = wAcc ch buf := by
  cases h : (Producer.write ch buf).res with
  | ok n =>
      have hn := write_res_ok ch buf n h
      simp [writeAcc, h, hn]
  | error e =>
      have h0 : wAcc ch buf = 0 := by
        by_cases hc : ch.cls = false
        · simp [wAcc, hc]
        · rw [Bool.not_eq_false] at hc
          by_cases hf : ch.ring.length = ch.cap
          · simp [wAcc, hc, hf]
          · rw [write_ok_of ch buf hc hf] at h
            simp at h
      simp [writeAcc, h, h0]

theorem roundStep_out_mono (k b : Nat) (s : DriveState) :
    s.out.length ≤ (roundStep k b s).out.length := by
  show s.out.length ≤
    (s.out ++ (Consumer.read (Producer.write s.ch (s.rest.take k)).st b).data).length
  simp

theorem roundStep_inv (C : Nat) (S : List Nat) (k b : Nat) (s : DriveState)
    (h : DriveInv C S s) : DriveInv C S (roundStep k b s) := by
  obtain ⟨hcap, hcls, hlen, hsum⟩ := h
  have hwring := write_st_ring s.ch (s.rest.take k)
  have hwcls := write_st_cls s.ch (s.rest.take k)
  have hwcap := write_st_cap s.ch (s.rest.take k)
  have hacc := writeAcc_eq s.ch (s.rest.take k)
  have hrring := read_st_ring (Producer.write s.ch (s.rest.take k)).st b
  have hrcls := read_st_cls (Producer.write s.ch (s.rest.take k)).st b
  have hrcap := read_st_cap (Producer.write s.ch (s.rest.take k)).st b
  have hrdata := read_data (Producer.write s.ch (s.rest.take k)).st b
  have htt : (s.rest.take k).take (wAcc s.ch (s.rest.take k)) =
      s.rest.take (wAcc s.ch (s.rest.take k)) := by
    rw [List.take_take]
    congr 1
    have h1 : wAcc s.ch (s.rest.take k) ≤ k := by
      have h2 := wAcc_le_len s.ch (s.rest.take k)
      have h3 : (s.rest.take k).length ≤ k := by
        simp [List.length_take]
      omega
    exact min_eq_left h1
  refine ⟨?_, ?_, ?_, ?_⟩
  · show (Consumer.read (Producer.write s.ch (s.rest.take k)).st b).st.cap = C
    rw [hrcap, hwcap, hcap]
  · show (Consumer.read (Producer.write s.ch (s.rest.take k)).st b).st.cls = true
    rw [hrcls, hwcls, hcls]
  · show (Consumer.read (Producer.write s.ch (s.rest.take k)).st b).st.ring.length ≤ C
    rw [hrring]
    have h1 : (Producer.write s.ch (s.rest.take k)).st.ring.length ≤ C := by
      rw [hwring]
      have h2 := ring_after_write_le s.ch (s.rest.take k) (by omega)
      have h3 : ((s.rest.take k).take (wAcc s.ch (s.rest.take k))).length ≤
          wAcc s.ch (s.rest.take k) := by
        simp [List.length_take]
      rw [List.length_append]
      omega
    rw [List.length_drop]
    omega
  · show s.out ++ (Consumer.read (Producer.write s.ch (s.rest.take k)).st b).data ++
      (Consumer.read (Producer.write s.ch (s.rest.take k)).st b).st.ring ++
        s.rest.drop (writeAcc (Producer.write s.ch (s.rest.take k))) = S
    rw [hrdata, hrring, hacc]
    rw [List.append_assoc s.out
      ((Producer.write s.ch (s.rest.take k)).st.ring.take
        (rCnt (Producer.write s.ch (s.rest.take k)).st b))
      ((Producer.write s.ch (s.rest.take k)).st.ring.drop
        (rCnt (Producer.write s.ch (s.rest.take k)).st b))]
    rw [List.take_append_drop]
    rw [hwring, htt]
    rw [← List.append_assoc s.out s.ch.ring
      (s.rest.take (wAcc s.ch (s.rest.take k)))]
    rw [List.append_assoc (s.out ++ s.ch.ring)
      (s.rest.take (wAcc s.ch (s.rest.take k)))
      (s.rest.drop (wAcc s.ch (s.rest.take k)))]
    rw [List.take_append_drop]
    exact hsum

theorem roundStep_progress (C : Nat) (S : List Nat) (k b : Nat) (s : DriveState)
    (h : DriveInv C S s) (hC : 1 ≤ C) (hk : 1 ≤ k) (hb : 1 ≤ b)
    (hnd : s.out.length < S.length) :
    s.out.length + 1 ≤ (roundStep k b s).out.length := by
  obtain ⟨hcap, hcls, hlen, hsum⟩ := h
  have hkey : (Producer.write s.ch (s.rest.take k)).st.ring.length ≠ 0 := by
    rw [write_st_ring]
    by_cases hne : s.ch.ring = []
    · have hrest : s.rest ≠ [] := by
        intro hre
        rw [hne, hre] at hsum
        simp at hsum
        rw [hsum] at hnd
        exact lt_irrefl _ hnd
      have htk : s.rest.take k ≠ [] := by
        apply List.length_pos.mp
        rw [List.length_take]
        exact lt_min_iff.mpr ⟨hk, List.length_pos.mpr hrest⟩
      have hwpos : 0 < wAcc s.ch (s.rest.take k) := by
        apply wAcc_pos s.ch (s.rest.take k) hcls _ htk
        rw [hcap]
        simp [hne]
        omega
      rw [hne]
      simp [List.length_take]
      exact ⟨by omega, by omega, hrest⟩
    · have h0 : s.ch.ring.length ≠ 0 := by
        simp [List.length_eq_zero, hne]
      rw [List.length_append]
      omega
  have hm : 0 < rCnt (Producer.write s.ch (s.rest.take k)).st b := by
    rw [rCnt, if_neg hkey]
    exact lt_min_iff.mpr ⟨hb, Nat.pos_of_ne_zero hkey⟩
  have hdata := read_data (Producer.write s.ch (s.rest.take k)).st b
  show s.out.length + 1 ≤
    (s.out ++ (Consumer.read (Producer.write s.ch (s.rest.take k)).st b).data).length
  rw [List.length_append, hdata, List.length_take]
  have := Nat.pos_of_ne_zero hkey
  have h2 : 0 < min (rCnt (Producer.write s.ch (s.rest.take k)).st b)
      (Producer.write s.ch (s.rest.take k)).st.ring.length :=
    lt_min_iff.mpr ⟨hm, this⟩
  omega

theorem drive_inv (C : Nat) (S : List Nat) (ks bs : Nat → Nat) (r : Nat) :
    ∀ s, DriveInv C S s → DriveInv C S (drive ks bs r s) := by
  induction r with
  | zero => intro s h; exact h
  | succ n ih =>
      intro s h
      exact ih _ (roundStep_inv C S (ks n) (bs n) s h)

theorem drive_out_mono (ks bs : Nat → Nat) (r : Nat) :
    ∀ s : DriveState, s.out.length ≤ (drive ks bs r s).out.length := by
  induction r with
  | zero => intro s; exact le_refl _
  | succ n ih =>
      intro s
      exact le_trans (roundStep_out_mono (ks n) (bs n) s) (ih _)

theorem drive_progress (C : Nat) (S : List Nat) (ks bs : Nat → Nat)
    (hC : 1 ≤ C) (hks : ∀ i, 1 ≤ ks i) (hbs : ∀ i, 1 ≤ bs i) (r : Nat) :
    ∀ s, DriveInv C S s →
      min S.length (s.out.length + r) ≤ (drive ks bs r s).out.length := by
  induction r with
  | zero =>
      intro s h
      show min S.length (s.out.length + 0) ≤ s.out.length
      simp
  | succ n ih =>
      intro s h
      by_cases hnd : s.out.length < S.length
      · have hp := roundStep_progress C S (ks n) (bs n) s h hC (hks n) (hbs n) hnd
        have hinv := roundStep_inv C S (ks n) (bs n) s h
        calc min S.length (s.out.length + (n + 1))
            ≤ min S.length ((roundStep (ks n) (bs n) s).out.length + n) :=
              min_le_min (le_refl _) (by omega)
          _ ≤ (drive ks bs n (roundStep (ks n) (bs n) s)).out.length := ih _ hinv
          _ = (drive ks bs (n + 1) s).out.length := rfl
      · push_neg at hnd
        exact le_trans (le_trans (min_le_left _ _) hnd)
          (drive_out_mono ks bs (n + 1) s)

/-- C4: on any channel of capacity `C ≥ 1`, interleaving writes of the
not-yet-accepted remainder of a byte sequence `S` (chunk sizes drawn
from an arbitrary schedule, which subsumes retrying after `WouldBlock`
or after a partial write) with reads into buffers of arbitrary positive
sizes keeps, at every round, delivered ++ buffered ++ unsent = `S`
(no byte lost, duplicated or reordered), and after `S.length` rounds
the reader has received exactly `S`. -/
theorem fifo_delivers_in_order (C : Nat) (S : List Nat) (ks bs : Nat → Nat)
    (hC : 1 ≤ C) (hks : ∀ i, 1 ≤ ks i) (hbs : ∀ i, 1 ≤ bs i) :
    (∀ r, (drive ks bs r ⟨create C, S, []⟩).out ++
        (drive ks bs r ⟨create C, S, []⟩).ch.ring ++
        (drive ks bs r ⟨create C, S, []⟩).rest = S) ∧
    (drive ks bs S.length ⟨create C, S, []⟩).out = S := by
  have hinv0 : DriveInv C S ⟨create C, S, []⟩ :=
    ⟨rfl, rfl, Nat.zero_le C, rfl⟩
  constructor
  · intro r
    exact (drive_inv C S ks bs r _ hinv0).2.2.2
  · have hge := drive_progress C S ks bs hC hks hbs S.length _ hinv0
    have hsum := (drive_inv C S ks bs S.length _ hinv0).2.2.2
    have hlen : S.length ≤ (drive ks bs S.length ⟨create C, S, []⟩).out.length := by
      have h0 : min S.length
          ((⟨create C, S, []⟩ : DriveState).out.length + S.length) = S.length := by
        simp
      rw [h0] at hge
      exact hge
    have hl2 := congrArg List.length hsum
    simp only [List.length_append] at hl2
    have hring : (drive ks bs S.length ⟨create C, S, []⟩).ch.ring = [] :=
      List.length_eq_zero.mp (by omega)
    have hrest : (drive ks bs S.length ⟨create C, S, []⟩).rest = [] :=
      List.length_eq_zero.mp (by omega)
    rw [hring, hrest] at hsum
    simpa using hsum

/-- Witness for `fifo_delivers_in_order`: capacity 2, source sequence
`[5, 6, 7]`, chunk schedule constantly 2, read-buffer schedule
constantly 1: after 3 rounds the reader holds exactly `[5, 6, 7]`. -/
theorem fifo_delivers_in_order_witness :
    (drive (fun _ => 2) (fun _ => 1) 3 ⟨create 2, [5, 6, 7], []⟩).out =
      [5, 6, 7] :=
  (fifo_delivers_in_order 2 [5, 6, 7] (fun _ => 2) (fun _ => 1)
    (by decide) (fun _ => one_le_two) (fun _ => le_refl 1)).2

end MioByteFifo
